import Mathlib

/-!
Verification of the rustyline-async crate: a shallow embedding of its core
data structures and the proofs of the specification's testable properties.

Embedded components, translated from the source:
* History            — from src/history.rs (the version used by src/line.rs);
* LineState          — from src/line.rs;
* SharedWriter       — from src/lib.rs (the `io::Write` and `AsyncWrite`
                       implementations over a bounded mpsc channel).

Modelling conventions:
* Byte buffers are `List Char` (the data exercised by the claims is ASCII).
* The bounded thingbuf mpsc channel is a `Channel` record (queue of chunks,
  capacity, closed flag) threaded explicitly through the writer operations.
* The edit buffer of LineState is the list of its grapheme clusters
  (`List String`); byte indices from the source are translated to
  cluster indices, which the source only ever uses to delete a whole
  cluster, to insert at a cluster boundary, or to take a cluster prefix.
* The external unicode-segmentation test in the character-insert handler
  (whether pushing a char onto `cluster_buffer` leaves its grapheme count
  unchanged) is carried on the event itself as a `merges` flag; for plain
  ASCII characters the flag is `false`.
* The external ansi-width crate is modelled for plain (ANSI-free, narrow)
  text: one display cell per character, control newline has width zero.
* Machine-integer casts to u16 in the column arithmetic are modelled with
  an explicit `% 65536`.
* Terminal output is external I/O: the cursor-movement and clearing
  commands queued on the terminal do not change the embedded state, so the
  embedded operations return only the state (and result) updates.
-/

deriving instance DecidableEq for Except

namespace RustylineAsync

/-! ## History — src/history.rs -/

/-- History from src/history.rs: past submitted lines with a navigation
position.  Old entries are at the head of the list (the VecDeque front),
new ones at the end (the back). -/
structure History where
  entries : List String
  max_size : Nat
  current_position : Option Nat
deriving DecidableEq

/-- Default History: no entries, capacity 1000, fresh position. -/
def History.default : History := ⟨[], 1000, none⟩

/-- History::add_entry.  The position reset happens before the
duplicate/empty check, exactly as in the source. -/
def History.add_entry (h : History) (line : String) : History :=
  let h := { h with current_position := none }
  if h.entries.getLast? = some line ∨ line = "" then h
  else
    let e := h.entries ++ [line]
    if e.length > h.max_size then { h with entries := e.tail }
    else { h with entries := e }

/-- History::set_max_size: store the new size, pop oldest entries (the
front of the deque, the head of the list) while too long, reset position. -/
def History.set_max_size (h : History) (m : Nat) : History :=
  { h with
    max_size := m
    entries := h.entries.drop (h.entries.length - m)
    current_position := none }

/-- History::set_entries: clear, re-add every entry through add_entry,
reset position. -/
def History.set_entries (h : History) (l : List String) : History :=
  let h := { h with entries := [] }
  let h := l.foldl History.add_entry h
  { h with current_position := none }

/-- History::reset_position. -/
def History.reset_position (h : History) : History :=
  { h with current_position := none }

/-- History::search_next (Up): from a fresh position jump to the newest
entry (index len-1, the back); otherwise step the index towards 0 stopping
there, and return the entry at the new index.  Returns the result together
with the updated History (the Rust method mutates in place). -/
def History.search_next (h : History) (_current : String) :
    Option String × History :=
  match h.current_position with
  | some index =>
    let index := if index > 0 then index - 1 else index
    (some (h.entries.getD index ""), { h with current_position := some index })
  | none =>
    match h.entries.getLast? with
    | some last =>
      (some last, { h with current_position := some (h.entries.length - 1) })
    | none => (none, h)

/-- History::search_previous (Down): from a fresh position return nothing;
from the last index reset to fresh and return the empty-string sentinel;
otherwise increment and return the entry there. -/
def History.search_previous (h : History) (_current : String) :
    Option String × History :=
  match h.current_position with
  | some index =>
    if index = h.entries.length - 1 then
      (some "", { h with current_position := none })
    else
      (some (h.entries.getD (index + 1) ""),
       { h with current_position := some (index + 1) })
  | none => (none, h)

/-- The History invariants of spec section 3: no two adjacent stored
entries equal, no empty entry, count bounded by the capacity. -/
def History.Inv (h : History) : Prop :=
  h.entries.Chain' (· ≠ ·) ∧ "" ∉ h.entries ∧ h.entries.length ≤ h.max_size

instance (h : History) : Decidable h.Inv := by
  unfold History.Inv; infer_instance

/-- The History mutators covered by the invariant claim. -/
inductive HistOp where
  | add (line : String)
  | setMaxSize (m : Nat)
  | setEntries (l : List String)
deriving DecidableEq

/-- Apply one History mutator. -/
def History.applyOp (h : History) (op : HistOp) : History :=
  match op with
  | .add line => h.add_entry line
  | .setMaxSize m => h.set_max_size m
  | .setEntries l => h.set_entries l

/-! ## SharedWriter — src/lib.rs -/

/-- Failure modes of the SharedWriter write path: io::ErrorKind::WouldBlock
when the channel is full, and the receiver-closed error. -/
inductive WriteError where
  | wouldBlock
  | closed
deriving DecidableEq

/-- Model of the bounded thingbuf mpsc channel of byte chunks created by
Readline::with_history: a FIFO queue of chunks, a fixed capacity, and
whether the consumer is gone.  try_send succeeds exactly when the channel
is open and below capacity. -/
structure Channel where
  queue : List (List Char)
  capacity : Nat
  closed : Bool
deriving DecidableEq

/-- SharedWriter: the per-handle private byte buffer.  The shared sender is
represented by threading the Channel through each operation. -/
structure SharedWriter where
  buffer : List Char
deriving DecidableEq

/-- SharedWriter as io::Write, fn write (the non-suspending path): extend
the local buffer with buf; if the buffer now ends in a newline, try_send it
as one chunk (swap-and-clear leaves the local buffer empty); a full channel
yields WouldBlock, a closed one the closed error, and in both failure cases
the already-extended local buffer is kept as is.  Returns buf.len() on
success. -/
def SharedWriter.write (w : SharedWriter) (buf : List Char) (ch : Channel) :
    Except WriteError Nat × SharedWriter × Channel :=
  let buffer := w.buffer ++ buf
  if buffer.getLast? = some '\n' then
    if ch.closed then (.error .closed, ⟨buffer⟩, ch)
    else if ch.queue.length < ch.capacity then
      (.ok buf.length, ⟨[]⟩, { ch with queue := ch.queue ++ [buffer] })
    else (.error .wouldBlock, ⟨buffer⟩, ch)
  else (.ok buf.length, ⟨buffer⟩, ch)

/-- SharedWriter as io::Write, fn flush: the synchronous flush body is
literally Ok(()) — it touches neither the buffer nor the channel. -/
def SharedWriter.flush (w : SharedWriter) (ch : Channel) :
    Except WriteError Unit × SharedWriter × Channel :=
  (.ok (), w, ch)

/-- SharedWriter as AsyncWrite, fn poll_flush: await a send slot and move
the whole pending buffer (newline-terminated or not) into the channel as
one chunk, clearing the local buffer.  none models Poll::Pending (the task
suspends while the channel is full). -/
def SharedWriter.poll_flush (w : SharedWriter) (ch : Channel) :
    Option (Except WriteError Unit × SharedWriter × Channel) :=
  if ch.closed then some (.error .closed, w, ch)
  else if ch.queue.length < ch.capacity then
    some (.ok (), ⟨[]⟩, { ch with queue := ch.queue ++ [w.buffer] })
  else none

/-! ## LineState — src/line.rs -/

/-- Display width of plain text, modelling the external ansi-width crate on
the ANSI-free narrow text exercised here: every character is one cell
except the newline control character, which is zero cells. -/
def ansiWidth (cs : List Char) : Nat :=
  (cs.filter (fun c => !(c == '\n'))).length

/-- Display width of one string (for example a grapheme cluster). -/
def strWidth (g : String) : Nat := ansiWidth g.toList

/-- Display width of a cluster prefix of the edit buffer. -/
def lineWidth (l : List String) : Nat := (l.map strWidth).sum

/-- Stand-in for unicode-segmentation on whole strings pulled out of the
History: one cluster per character, exact for the plain-ASCII entries the
claims exercise. -/
def toClusters (s : String) : List String :=
  s.toList.map (fun c => String.mk [c])

/-- ReadlineEvent, the output events of handle_event as constructed in
src/line.rs and spec section 4.1: Line(text), Eof, Interrupted. -/
inductive ReadlineEvent where
  | line (s : String)
  | eof
  | interrupted
deriving DecidableEq

/-- The key codes of the plain (non-CONTROL-modifier) key-press events
that the claims exercise.  A character key carries the outcome of the
unicode-segmentation test of the handler (whether pushing the char onto
cluster_buffer left its grapheme count unchanged); plain ASCII characters
never merge. -/
inductive KeyCode where
  | enter
  | backspace
  | delete
  | left
  | right
  | up
  | down
  | char (c : Char) (merges : Bool)
deriving DecidableEq

/-- Decoded terminal events: a key press without the CONTROL modifier, or
a resize carrying the new u16 column and row counts. -/
inductive Event where
  | key (code : KeyCode)
  | resize (x y : Nat)
deriving DecidableEq

/-- LineState from src/line.rs.  The edit buffer `line` is its list of
grapheme clusters; `cluster_buffer` likewise holds clusters.  Column
fields are u16 in the source and wrap modulo 65536 here. -/
structure LineState where
  line : List String
  line_cursor_grapheme : Nat
  current_column : Nat
  cluster_buffer : List String
  prompt : String
  prompt_len : Nat
  should_print_line_on_enter : Bool
  should_print_line_on_control_c : Bool
  last_line_length : Nat
  last_line_completed : Bool
  term_size : Nat × Nat
  history : History
deriving DecidableEq

/-- LineState::new: prompt width precomputed, last write marked completed,
the column count of the terminal size clamped to at least 1, both echo
flags on, everything else defaulted (History::default has capacity 1000). -/
def LineState.new (prompt : String) (term_size : Nat × Nat) : LineState :=
  { line := []
    line_cursor_grapheme := 0
    current_column := strWidth prompt % 65536
    cluster_buffer := []
    prompt := prompt
    prompt_len := strWidth prompt % 65536
    should_print_line_on_enter := true
    should_print_line_on_control_c := true
    last_line_length := 0
    last_line_completed := true
    term_size := (max term_size.1 1, term_size.2)
    history := History.default }

/-- LineState::line_height: how many rows a column position wraps into.
In the source this is u16 division by the stored column count; with a
stored width of zero the Rust division panics. -/
def LineState.line_height (s : LineState) (pos : Nat) : Nat :=
  pos / s.term_size.1

/-- LineState::current_grapheme: the last cluster of the cursor-length
prefix, together with its cluster index (the source returns the byte
index, used only to that cluster's boundaries). -/
def LineState.current_grapheme (s : LineState) : Option (Nat × String) :=
  match (s.line.take s.line_cursor_grapheme).getLast? with
  | none => none
  | some g => some (min s.line_cursor_grapheme s.line.length - 1, g)

/-- LineState::next_grapheme: none at the end of the buffer, otherwise the
last cluster of the (cursor+1)-length prefix with its cluster index. -/
def LineState.next_grapheme (s : LineState) : Option (Nat × String) :=
  if s.line_cursor_grapheme = s.line.length then none
  else
    match (s.line.take (s.line_cursor_grapheme + 1)).getLast? with
    | none => none
    | some g => some (min (s.line_cursor_grapheme + 1) s.line.length - 1, g)

/-- Cluster index one past the current grapheme: the insertion point of
the character handler and the prefix length of the column recomputation
(pos + str.len() in the source, translated from bytes to clusters). -/
def LineState.cursor_pos (s : LineState) : Nat :=
  match s.current_grapheme with
  | some (i, _) => i + 1
  | none => 0

/-- LineState::move_cursor: move right clamps to the grapheme count, move
left saturates at zero; then recompute current_column from the prompt
width plus the display width of the buffer prefix up to the cursor. -/
def LineState.move_cursor (s : LineState) (change : Int) : LineState :=
  let cursor :=
    if 0 < change then
      min (s.line_cursor_grapheme + change.toNat) s.line.length
    else s.line_cursor_grapheme - (-change).toNat
  let s := { s with line_cursor_grapheme := cursor }
  { s with
    current_column :=
      (s.prompt_len + lineWidth (s.line.take s.cursor_pos)) % 65536 }

/-- LineState::print_data, its state effect (the terminal writes are
external I/O): record whether the data ended in a newline; if it did not,
add the display width of the whole data to last_line_length and reduce it
modulo the column count once it reaches it, otherwise reset the length
to zero. -/
def LineState.print_data (s : LineState) (data : List Char) : LineState :=
  if data.getLast? = some '\n' then
    { s with last_line_completed := true, last_line_length := 0 }
  else
    let len := s.last_line_length + ansiWidth data
    let len := if s.term_size.1 ≤ len then len % s.term_size.1 else len
    { s with last_line_completed := false, last_line_length := len }

/-- Push one char onto the cluster buffer: merging extends the last
cluster (leaving the cluster count unchanged), otherwise the char starts
a new cluster at the end. -/
def pushCluster (cb : List String) (c : Char) (merges : Bool) : List String :=
  match cb.getLast?, merges with
  | some g, true => cb.dropLast ++ [g.push c]
  | _, _ => cb ++ [c.toString]

/-- Insert a fresh cluster at a cluster index (String::insert at a cluster
boundary when the inserted char did not merge). -/
def insertCluster : List String → Nat → String → List String
  | l, 0, g => g :: l
  | [], _ + 1, g => [g]
  | x :: xs, n + 1, g => x :: insertCluster xs n g

/-- Merge a char at a cluster position (String::insert when the char
merged): at position k+1 it extends cluster k; at position 0 a combining
char at the start of the text forms a defective cluster of its own. -/
def mergeCluster : List String → Nat → Char → List String
  | l, 0, c => c.toString :: l
  | [], _ + 1, c => [c.toString]
  | x :: xs, 1, c => x.push c :: xs
  | x :: xs, n + 2, c => x :: mergeCluster xs (n + 1) c

/-- Body of the KeyCode::Char arm of handle_event: push the char onto the
cluster buffer; if the cluster count of the buffer changed the char did
not merge, so it is inserted as a fresh cluster at the cursor and the
cursor advances by one grapheme (dropping the finished leading cluster of
the cluster buffer when one was pending); otherwise the char merges into
the cluster before the cursor and the cursor stays. -/
def LineState.handle_char (s : LineState) (c : Char) (merges : Bool) :
    LineState :=
  let prev_len := s.cluster_buffer.length
  let cb := pushCluster s.cluster_buffer c merges
  let changed := cb.length != prev_len
  let pos := s.cursor_pos
  let s :=
    { s with
      line :=
        if changed then insertCluster s.line pos c.toString
        else mergeCluster s.line pos c
      cluster_buffer := cb }
  if changed then
    let s := s.move_cursor 1
    if prev_len > 0 then
      { s with cluster_buffer := s.cluster_buffer.tail }
    else s
  else s

/-- LineState::handle_event restricted to the events of the claims (plain
key presses and resize; the terminal-drawing calls clear, render,
reset_cursor and set_cursor queue cursor commands on the terminal and do
not change the embedded state). -/
def LineState.handle_event (s : LineState) (e : Event) :
    Option ReadlineEvent × LineState :=
  match e with
  | .key .enter =>
    let s :=
      if s.should_print_line_on_enter then
        s.print_data ((s.prompt ++ String.join s.line).toList ++ ['\n'])
      else s
    let line := String.join s.line
    let s := { s with line := [] }
    let s := s.move_cursor (-100000)
    let s := { s with history := s.history.reset_position }
    (some (.line line), s)
  | .key .backspace =>
    match s.current_grapheme with
    | some (i, _) =>
      let s := { s with line := s.line.eraseIdx i }
      (none, s.move_cursor (-1))
    | none => (none, s)
  | .key .delete =>
    match s.next_grapheme with
    | some (i, _) => (none, { s with line := s.line.eraseIdx i })
    | none => (none, s)
  | .key .left => (none, s.move_cursor (-1))
  | .key .right => (none, s.move_cursor 1)
  | .key .up =>
    match s.history.search_next (String.join s.line) with
    | (some l, h) =>
      let s := { s with history := h, line := toClusters l }
      (none, s.move_cursor 100000)
    | (none, h) => (none, { s with history := h })
  | .key .down =>
    match s.history.search_previous (String.join s.line) with
    | (some l, h) =>
      let s := { s with history := h, line := toClusters l }
      (none, s.move_cursor 100000)
    | (none, h) => (none, { s with history := h })
  | .key (.char c merges) => (none, s.handle_char c merges)
  | .resize x y => (none, { s with term_size := (x, y) })

/-- One orchestration step: apply an event and keep the state. -/
def LineState.step (s : LineState) (e : Event) : LineState :=
  (s.handle_event e).2

/-- The event kinds of the cursor-bound claim: character insert,
backspace, delete-forward, cursor left, cursor right. -/
def Event.isEditKey : Event → Bool
  | .key .backspace | .key .delete | .key .left | .key .right
  | .key (.char _ _) => true
  | _ => false

/-! ## Spec-side definitions and concrete states -/

/-- Spec-side definition, following section 4.1 of the spec: the trailing
unterminated segment of a write — the portion of the data after the last
newline. -/
def trailingSegment (data : List Char) : List Char :=
  (data.reverse.takeWhile (fun c => !(c == '\n'))).reverse

/-- A reachable LineState holding 100001 one-char clusters with the cursor
at the end, as produced by typing 100001 characters, with the enter echo
disabled (a public configuration flag). -/
def bigState : LineState :=
  { LineState.new "> " (80, 24) with
    line := List.replicate 100001 "a"
    line_cursor_grapheme := 100001
    should_print_line_on_enter := false }

/-- The state reached from LineState::new with prompt "> " by typing the
plain characters f, o, o. -/
def fooState : LineState :=
  [Event.key (.char 'f' false), Event.key (.char 'o' false),
   Event.key (.char 'o' false)].foldl LineState.step
    (LineState.new "> " (80, 24))

/-! ## Helper lemmas: History -/

/-- Closed form of add_entry on an explicit History triple. -/
theorem History.add_entry_eq (e : List String) (ms : Nat) (pos : Option Nat)
    (line : String) :
    History.add_entry ⟨e, ms, pos⟩ line =
      if e.getLast? = some line ∨ line = "" then ⟨e, ms, none⟩
      else if e.length + 1 > ms then ⟨(e ++ [line]).tail, ms, none⟩
      else ⟨e ++ [line], ms, none⟩ := by
  simp [History.add_entry]

/-- add_entry preserves the History invariants. -/
theorem History.Inv.add_entry {h : History} (hI : h.Inv) (line : String) :
    (h.add_entry line).Inv := by
  obtain ⟨e, ms, pos⟩ := h
  obtain ⟨hchain, hmem, hlen⟩ := hI
  simp only [History.Inv] at hchain hmem hlen ⊢
  rw [History.add_entry_eq]
  split
  · exact ⟨hchain, hmem, hlen⟩
  · rename_i hcond
    push_neg at hcond
    obtain ⟨hlast, hne⟩ := hcond
    replace hlast : ¬ e.getLast? = some line := hlast
    have hchain' : (e ++ [line]).Chain' (· ≠ ·) := by
      rw [List.chain'_append]
      refine ⟨hchain, List.chain'_singleton _, ?_⟩
      intro x hx y hy
      simp only [List.head?_cons, Option.mem_def, Option.some.injEq] at hy
      subst hy
      intro hxy
      exact hlast (hxy ▸ hx)
    have hmem' : "" ∉ e ++ [line] := by
      simp only [List.mem_append, List.mem_singleton]
      rintro (hx | hx)
      · exact hmem hx
      · exact hne hx.symm
    split
    · rename_i hgt
      refine ⟨hchain'.tail, ?_, ?_⟩
      · intro hx
        exact hmem' (List.mem_of_mem_tail hx)
      · simp only [List.length_tail, List.length_append, List.length_singleton]
        omega
    · rename_i hle
      refine ⟨hchain', hmem', ?_⟩
      simp only [List.length_append, List.length_singleton]
      omega

/-- set_max_size preserves the History invariants (relative to the new
capacity). -/
theorem History.Inv.set_max_size {h : History} (hI : h.Inv) (m : Nat) :
    (h.set_max_size m).Inv := by
  obtain ⟨hchain, hmem, _⟩ := hI
  refine ⟨hchain.drop _, fun hx => hmem (List.mem_of_mem_drop hx), ?_⟩
  simp only [History.set_max_size, List.length_drop]
  omega

/-- Re-adding a list of entries through add_entry preserves the
invariants. -/
theorem History.Inv.foldl_add {h : History} (hI : h.Inv) (l : List String) :
    (l.foldl History.add_entry h).Inv := by
  induction l generalizing h with
  | nil => exact hI
  | cons x xs ih => exact ih (hI.add_entry x)

/-- set_entries establishes the History invariants from any prior state. -/
theorem History.Inv.set_entries {h : History} (l : List String) :
    (h.set_entries l).Inv := by
  have h0 : History.Inv { h with entries := [] } :=
    ⟨List.chain'_nil, by simp, by simp⟩
  have hf := h0.foldl_add l
  exact ⟨hf.1, hf.2.1, hf.2.2⟩

/-- Every History mutator covered by the claim preserves the invariants. -/
theorem History.Inv.applyOp {h : History} (hI : h.Inv) (op : HistOp) :
    (h.applyOp op).Inv := by
  cases op with
  | add line => exact hI.add_entry line
  | setMaxSize m => exact hI.set_max_size m
  | setEntries l => exact History.Inv.set_entries l

/-! ## Claim theorems: History -/

/-- C3: for every sequence of add_entry, set_max_size and set_entries
calls on a History satisfying the invariants (in particular a fresh one),
the stored entry count never exceeds max_size, no two adjacent stored
entries are equal, and no stored entry is the empty string. -/
theorem history_invariants_preserved (ops : List HistOp) (h : History)
    (hI : h.Inv) : (ops.foldl History.applyOp h).Inv := by
  induction ops generalizing h with
  | nil => exact hI
  | cons op ops ih => exact ih _ (hI.applyOp op)

/-- Witness for C3: the invariants hold after a concrete mixed sequence of
mutations starting from the default History. -/
theorem history_invariants_preserved_witness :
    ([HistOp.add "a", HistOp.add "a", HistOp.add "", HistOp.setMaxSize 1,
      HistOp.setEntries ["x", "x", "y"], HistOp.add "y"].foldl
        History.applyOp ⟨[], 1000, none⟩).Inv :=
  history_invariants_preserved _ _ (by decide)

/-- C5: inserting a, b, c (a oldest) into a fresh History yields entries
[a, b, c] with a fresh position; search_previous first returns nothing;
three search_next calls return c, b, a; a fourth returns a again with the
position pinned at the oldest index. -/
theorem history_traversal (a b c : String) (ha : a ≠ "") (hb : b ≠ "")
    (hc : c ≠ "") (hab : a ≠ b) (hbc : b ≠ c) :
    ((History.default.add_entry a).add_entry b).add_entry c
      = ⟨[a, b, c], 1000, none⟩ ∧
    History.search_previous ⟨[a, b, c], 1000, none⟩ ""
      = (none, ⟨[a, b, c], 1000, none⟩) ∧
    History.search_next ⟨[a, b, c], 1000, none⟩ ""
      = (some c, ⟨[a, b, c], 1000, some 2⟩) ∧
    History.search_next ⟨[a, b, c], 1000, some 2⟩ ""
      = (some b, ⟨[a, b, c], 1000, some 1⟩) ∧
    History.search_next ⟨[a, b, c], 1000, some 1⟩ ""
      = (some a, ⟨[a, b, c], 1000, some 0⟩) ∧
    History.search_next ⟨[a, b, c], 1000, some 0⟩ ""
      = (some a, ⟨[a, b, c], 1000, some 0⟩) := by
  refine ⟨?_, ?_, ?_, ?_, ?_, ?_⟩
  · simp [History.default, History.add_entry, ha, hb, hc, hab, hbc]
  · simp [History.search_previous]
  · simp [History.search_next]
  · simp [History.search_next, List.getD]
  · simp [History.search_next, List.getD]
  · simp [History.search_next, List.getD]

/-- Witness for C5: the traversal at the concrete entries a, b, c. -/
theorem history_traversal_witness :
    History.search_next ⟨["a", "b", "c"], 1000, none⟩ ""
      = (some "c", ⟨["a", "b", "c"], 1000, some 2⟩) :=
  (history_traversal "a" "b" "c" (by decide) (by decide) (by decide)
    (by decide) (by decide)).2.2.1

/-- C8 counterexample: add_entry of a line equal to the most recently
added entry is not a complete no-op — it resets the navigation position,
so a History navigated to position 0 changes state. -/
theorem add_entry_duplicate_changes_state :
    History.add_entry ⟨["a"], 1000, some 0⟩ "a" ≠ ⟨["a"], 1000, some 0⟩ := by
  decide

/-- C8 amended: add_entry with an empty line or a line equal to the most
recently added entry leaves the stored entries and the capacity unchanged,
but always resets the navigation position to None. -/
theorem add_entry_duplicate_or_empty (h : History) (line : String)
    (hcond : h.entries.getLast? = some line ∨ line = "") :
    (h.add_entry line).entries = h.entries ∧
    (h.add_entry line).max_size = h.max_size ∧
    (h.add_entry line).current_position = none := by
  unfold History.add_entry
  dsimp only
  rw [if_pos hcond]
  exact ⟨rfl, rfl, rfl⟩

/-- Witness for C8: the duplicate-entry call at a concrete History keeps
the entries and resets the position. -/
theorem add_entry_duplicate_or_empty_witness :
    (History.add_entry ⟨["a"], 1000, some 0⟩ "a").entries = ["a"] :=
  (add_entry_duplicate_or_empty ⟨["a"], 1000, some 0⟩ "a" (by decide)).1

/-! ## Claim theorems: SharedWriter -/

/-- C1, evaluation at the failing input: with the channel full, the
non-suspending write fails with WouldBlock but has already appended the
bytes to the writer's local buffer; after the consumer drains the one
slot, retrying the identical write succeeds but enqueues the bytes twice. -/
theorem write_wouldBlock_retry_duplicates :
    SharedWriter.write ⟨[]⟩ ['x', '\n'] ⟨[['z', '\n']], 1, false⟩
      = (.error .wouldBlock, ⟨['x', '\n']⟩, ⟨[['z', '\n']], 1, false⟩) ∧
    SharedWriter.write ⟨['x', '\n']⟩ ['x', '\n'] ⟨[], 1, false⟩
      = (.ok 2, ⟨[]⟩, ⟨[['x', '\n', 'x', '\n']], 1, false⟩) ∧
    [['x', '\n', 'x', '\n']] ≠ [(['x', '\n'] : List Char)] := by
  decide

/-- C2: from an empty local buffer on an open channel with room, writing
abc then def-newline enqueues nothing after the first write and exactly
the single chunk abcdef-newline after the second, leaving the buffer
empty; writing x-newline then y-newline enqueues exactly those two chunks
in order. -/
theorem sharedWriter_chunking (w : SharedWriter) (ch : Channel)
    (hw : w.buffer = []) (hcl : ch.closed = false)
    (hcap : ch.queue.length + 2 ≤ ch.capacity) :
    w.write ['a', 'b', 'c'] ch = (.ok 3, ⟨['a', 'b', 'c']⟩, ch) ∧
    SharedWriter.write ⟨['a', 'b', 'c']⟩ ['d', 'e', 'f', '\n'] ch
      = (.ok 4, ⟨[]⟩,
         { ch with
           queue := ch.queue ++ [['a', 'b', 'c', 'd', 'e', 'f', '\n']] }) ∧
    w.write ['x', '\n'] ch
      = (.ok 2, ⟨[]⟩, { ch with queue := ch.queue ++ [['x', '\n']] }) ∧
    SharedWriter.write ⟨[]⟩ ['y', '\n']
        { ch with queue := ch.queue ++ [['x', '\n']] }
      = (.ok 2, ⟨[]⟩,
         { ch with queue := ch.queue ++ [['x', '\n'], ['y', '\n']] }) := by
  obtain ⟨wb⟩ := w
  obtain rfl : wb = [] := hw
  have h1 : ch.queue.length < ch.capacity := by omega
  have h2 : ch.queue.length + 1 < ch.capacity := by omega
  refine ⟨?_, ?_, ?_, ?_⟩ <;>
    simp [SharedWriter.write, hcl, h1, h2]

/-- Witness for C2: the first newline-terminated write on a concrete
fresh channel of capacity 2 delivers its chunk. -/
theorem sharedWriter_chunking_witness :
    SharedWriter.write ⟨[]⟩ ['x', '\n'] ⟨[], 2, false⟩
      = (.ok 2, ⟨[]⟩, ⟨[['x', '\n']], 2, false⟩) := by
  have h := sharedWriter_chunking ⟨[]⟩ ⟨[], 2, false⟩ rfl rfl (by decide)
  exact h.2.2.1

/-- C7 counterexample: the synchronous io::Write flush with pending bytes
abc neither clears the local buffer nor enqueues a chunk. -/
theorem sync_flush_does_not_enqueue :
    ¬ (((SharedWriter.flush ⟨['a', 'b', 'c']⟩ ⟨[], 500, false⟩).2.1.buffer
          = []) ∧
       (SharedWriter.flush ⟨['a', 'b', 'c']⟩ ⟨[], 500, false⟩).2.2.queue
          = [['a', 'b', 'c']]) := by
  decide

/-- C7 amended: the asynchronous poll_flush force-enqueues the pending
bytes as one chunk and clears the local buffer (the synchronous io::Write
flush is a no-op), and every chunk that write itself enqueues is
newline-terminated, so chunks reaching the consumer are newline-terminated
unless produced by an asynchronous flush. -/
theorem flush_semantics (w : SharedWriter) (ch : Channel) (buf : List Char)
    (hcl : ch.closed = false) (hcap : ch.queue.length < ch.capacity) :
    w.poll_flush ch
      = some (.ok (), ⟨[]⟩, { ch with queue := ch.queue ++ [w.buffer] }) ∧
    SharedWriter.flush w ch = (.ok (), w, ch) ∧
    ∀ chunk ∈ (w.write buf ch).2.2.queue,
      chunk ∈ ch.queue ∨ chunk.getLast? = some '\n' := by
  refine ⟨by simp [SharedWriter.poll_flush, hcl, hcap], rfl, ?_⟩
  intro chunk hchunk
  unfold SharedWriter.write at hchunk
  by_cases hnl : (w.buffer ++ buf).getLast? = some '\n'
  · simp only [hnl, if_pos, hcl, Bool.false_eq_true, if_false, hcap,
      if_true] at hchunk
    rw [List.mem_append] at hchunk
    rcases hchunk with hx | hx
    · exact Or.inl hx
    · rw [List.mem_singleton] at hx
      subst hx
      exact Or.inr hnl
  · rw [if_neg hnl] at hchunk
    exact Or.inl hchunk

/-- Witness for C7: the asynchronous flush of pending bytes abc on a
concrete open channel enqueues them as one chunk and clears the buffer. -/
theorem flush_semantics_witness :
    SharedWriter.poll_flush ⟨['a', 'b', 'c']⟩ ⟨[], 500, false⟩
      = some (.ok (), ⟨[]⟩, ⟨[['a', 'b', 'c']], 500, false⟩) := by
  have h := flush_semantics ⟨['a', 'b', 'c']⟩ ⟨[], 500, false⟩ ['x'] rfl
    (by decide)
  exact h.1

/-! ## Helper lemmas: LineState -/

/-- print_data does not touch the edit buffer. -/
theorem LineState.print_data_line (s : LineState) (d : List Char) :
    (s.print_data d).line = s.line := by
  unfold LineState.print_data
  split <;> rfl

/-- print_data does not touch the cursor. -/
theorem LineState.print_data_cursor (s : LineState) (d : List Char) :
    (s.print_data d).line_cursor_grapheme = s.line_cursor_grapheme := by
  unfold LineState.print_data
  split <;> rfl

/-- print_data does not touch the history. -/
theorem LineState.print_data_history (s : LineState) (d : List Char) :
    (s.print_data d).history = s.history := by
  unfold LineState.print_data
  split <;> rfl

/-- move_cursor does not touch the edit buffer. -/
theorem LineState.move_cursor_line (s : LineState) (c : Int) :
    (s.move_cursor c).line = s.line := rfl

/-- move_cursor does not touch the history. -/
theorem LineState.move_cursor_history (s : LineState) (c : Int) :
    (s.move_cursor c).history = s.history := rfl

/-- The cursor after move_cursor: clamped advance or saturating retreat. -/
theorem LineState.move_cursor_grapheme (s : LineState) (c : Int) :
    (s.move_cursor c).line_cursor_grapheme =
      if 0 < c then min (s.line_cursor_grapheme + c.toNat) s.line.length
      else s.line_cursor_grapheme - (-c).toNat := rfl

/-- The Enter handler returns the whole buffer contents as a Line event. -/
theorem LineState.enter_fst (s : LineState) :
    (s.handle_event (.key .enter)).1 = some (.line (String.join s.line)) := by
  unfold LineState.handle_event
  cases hsp : s.should_print_line_on_enter <;>
    simp [hsp, LineState.print_data_line]

/-- The Enter handler empties the edit buffer. -/
theorem LineState.enter_line (s : LineState) :
    (s.handle_event (.key .enter)).2.line = [] := by
  unfold LineState.handle_event
  cases hsp : s.should_print_line_on_enter <;>
    simp [hsp, LineState.move_cursor_line]

/-- The Enter handler resets the History navigation position. -/
theorem LineState.enter_history_position (s : LineState) :
    (s.handle_event (.key .enter)).2.history.current_position = none := by
  unfold LineState.handle_event
  cases hsp : s.should_print_line_on_enter <;>
    simp [hsp, History.reset_position]

/-- The Enter handler moves the cursor left by exactly the constant
100000 (saturating at zero), not necessarily to zero. -/
theorem LineState.enter_cursor (s : LineState) :
    (s.handle_event (.key .enter)).2.line_cursor_grapheme
      = s.line_cursor_grapheme - 100000 := by
  unfold LineState.handle_event
  cases hsp : s.should_print_line_on_enter <;>
    simp [hsp, LineState.move_cursor_grapheme, LineState.print_data_cursor]

/-- Inserting a fresh cluster grows the buffer by exactly one cluster. -/
theorem insertCluster_length (l : List String) (n : Nat) (g : String) :
    (insertCluster l n g).length = l.length + 1 := by
  induction l generalizing n with
  | nil => cases n <;> simp [insertCluster]
  | cons x xs ih => cases n <;> simp [insertCluster, ih]

/-- Merging a char never shrinks the cluster count of the buffer. -/
theorem mergeCluster_length_ge (l : List String) (n : Nat) (c : Char) :
    l.length ≤ (mergeCluster l n c).length := by
  induction l generalizing n with
  | nil => cases n <;> simp [mergeCluster]
  | cons x xs ih =>
    match n with
    | 0 => simp [mergeCluster]
    | 1 => simp [mergeCluster]
    | n + 2 =>
      simp only [mergeCluster, List.length_cons, Nat.add_le_add_iff_right]
      exact ih (n + 1)

/-- A current grapheme exists only with a nonempty buffer and a positive
cursor, and sits at cluster index min(cursor, length) - 1. -/
theorem LineState.current_grapheme_some {s : LineState} {i : Nat} {g : String}
    (h : s.current_grapheme = some (i, g)) :
    1 ≤ s.line_cursor_grapheme ∧ 1 ≤ s.line.length ∧
      i = min s.line_cursor_grapheme s.line.length - 1 := by
  unfold LineState.current_grapheme at h
  cases hl : (s.line.take s.line_cursor_grapheme).getLast? with
  | none => rw [hl] at h; exact absurd h (by simp)
  | some g' =>
    rw [hl] at h
    simp only [Option.some.injEq, Prod.mk.injEq] at h
    obtain ⟨hi, -⟩ := h
    have hne : s.line.take s.line_cursor_grapheme ≠ [] := by
      intro hnil
      rw [hnil] at hl
      simp at hl
    have hne2 := mt List.take_eq_nil_iff.mpr hne
    push_neg at hne2
    obtain ⟨h0, hnil⟩ := hne2
    have hlen : s.line.length ≠ 0 := fun hz => hnil (List.length_eq_zero.mp hz)
    exact ⟨by omega, by omega, hi.symm⟩

/-- A next grapheme exists only strictly before the end of the buffer, at
cluster index min(cursor+1, length) - 1. -/
theorem LineState.next_grapheme_some {s : LineState} {i : Nat} {g : String}
    (h : s.next_grapheme = some (i, g)) :
    s.line_cursor_grapheme ≠ s.line.length ∧ 1 ≤ s.line.length ∧
      i = min (s.line_cursor_grapheme + 1) s.line.length - 1 := by
  unfold LineState.next_grapheme at h
  split at h
  · exact absurd h (by simp)
  · rename_i hne
    cases hl : (s.line.take (s.line_cursor_grapheme + 1)).getLast? with
    | none => rw [hl] at h; exact absurd h (by simp)
    | some g' =>
      rw [hl] at h
      simp only [Option.some.injEq, Prod.mk.injEq] at h
      obtain ⟨hi, -⟩ := h
      have hne' : s.line.take (s.line_cursor_grapheme + 1) ≠ [] := by
        intro hnil
        rw [hnil] at hl
        simp at hl
      have hne2 := mt List.take_eq_nil_iff.mpr hne'
      push_neg at hne2
      obtain ⟨-, hnil⟩ := hne2
      have hlen : s.line.length ≠ 0 :=
        fun hz => hnil (List.length_eq_zero.mp hz)
      exact ⟨hne, by omega, hi.symm⟩

/-- move_cursor keeps the cursor within the grapheme count. -/
theorem LineState.move_cursor_bound (s : LineState) (c : Int)
    (h : s.line_cursor_grapheme ≤ s.line.length) :
    (s.move_cursor c).line_cursor_grapheme
      ≤ (s.move_cursor c).line.length := by
  rw [LineState.move_cursor_line, LineState.move_cursor_grapheme]
  split <;> omega

/-- The character handler keeps the cursor within the grapheme count. -/
theorem LineState.handle_char_bound (s : LineState) (c : Char)
    (merges : Bool) (h : s.line_cursor_grapheme ≤ s.line.length) :
    (s.handle_char c merges).line_cursor_grapheme
      ≤ (s.handle_char c merges).line.length := by
  unfold LineState.handle_char
  cases hch : (pushCluster s.cluster_buffer c merges).length
      != s.cluster_buffer.length with
  | false =>
    simp only [hch, Bool.false_eq_true, if_false]
    exact Nat.le_trans h (mergeCluster_length_ge s.line s.cursor_pos c)
  | true =>
    simp only [hch, if_true]
    have hb := LineState.move_cursor_bound
      { s with
        line := insertCluster s.line s.cursor_pos c.toString
        cluster_buffer := pushCluster s.cluster_buffer c merges } 1
      (by
        dsimp only
        rw [insertCluster_length]
        omega)
    split
    · simpa using hb
    · simpa using hb

/-- Any single edit-key event (character insert, backspace, delete, left,
right) keeps the cursor within the grapheme count. -/
theorem LineState.step_edit_bound (s : LineState) (e : Event)
    (he : e.isEditKey = true)
    (h : s.line_cursor_grapheme ≤ s.line.length) :
    (s.step e).line_cursor_grapheme ≤ (s.step e).line.length := by
  cases e with
  | resize x y => simp [Event.isEditKey] at he
  | key code =>
    cases code with
    | enter => simp [Event.isEditKey] at he
    | up => simp [Event.isEditKey] at he
    | down => simp [Event.isEditKey] at he
    | left => exact LineState.move_cursor_bound s (-1) h
    | right => exact LineState.move_cursor_bound s 1 h
    | char c merges => exact LineState.handle_char_bound s c merges h
    | backspace =>
      cases hg : s.current_grapheme with
      | none =>
        have hstep : s.step (.key .backspace) = s := by
          unfold LineState.step LineState.handle_event
          rw [hg]
        rw [hstep]
        exact h
      | some ig =>
        obtain ⟨i, g⟩ := ig
        have hstep : s.step (.key .backspace)
            = ({ s with line := s.line.eraseIdx i }).move_cursor (-1) := by
          unfold LineState.step LineState.handle_event
          rw [hg]
        obtain ⟨h1, h2, hi⟩ := LineState.current_grapheme_some hg
        rw [hstep, LineState.move_cursor_line, LineState.move_cursor_grapheme]
        have hlen : ({ s with line := s.line.eraseIdx i }).line.length
            = s.line.length - 1 := by
          dsimp only
          rw [List.length_eraseIdx, if_pos (by omega)]
        rw [hlen]
        dsimp only
        split <;> omega
    | delete =>
      cases hg : s.next_grapheme with
      | none =>
        have hstep : s.step (.key .delete) = s := by
          unfold LineState.step LineState.handle_event
          rw [hg]
        rw [hstep]
        exact h
      | some ig =>
        obtain ⟨i, g⟩ := ig
        have hstep : s.step (.key .delete)
            = { s with line := s.line.eraseIdx i } := by
          unfold LineState.step LineState.handle_event
          rw [hg]
        obtain ⟨hne, h2, hi⟩ := LineState.next_grapheme_some hg
        rw [hstep]
        dsimp only
        rw [List.length_eraseIdx, if_pos (by omega)]
        omega

/-! ## Claim theorems: LineState -/

/-- C4 counterexample: on a reachable LineState holding 100001 grapheme
clusters with the cursor at the end, handling Enter leaves the cursor
grapheme index at 1, not 0 (the handler subtracts the fixed constant
100000 instead of clamping to zero). -/
theorem enter_huge_line_cursor_nonzero :
    ¬ ((bigState.handle_event (.key .enter)).2.line_cursor_grapheme = 0) := by
  rw [LineState.enter_cursor]
  decide

/-- C4 amended: for every LineState whose cursor grapheme index is at most
100000 (in particular any buffer of at most 100000 graphemes), handling
Enter emits exactly one Line event carrying the buffer text, and
afterwards the edit buffer is empty, the cursor grapheme index is 0, and
the History navigation position is None. -/
theorem enter_takes_line (s : LineState)
    (hc : s.line_cursor_grapheme ≤ 100000) :
    (s.handle_event (.key .enter)).1 = some (.line (String.join s.line)) ∧
    (s.handle_event (.key .enter)).2.line = [] ∧
    (s.handle_event (.key .enter)).2.line_cursor_grapheme = 0 ∧
    (s.handle_event (.key .enter)).2.history.current_position = none := by
  refine ⟨LineState.enter_fst s, LineState.enter_line s, ?_,
    LineState.enter_history_position s⟩
  rw [LineState.enter_cursor]
  omega

/-- Witness for C4: typing foo from a fresh LineState and pressing Enter
emits exactly one Line event carrying foo. -/
theorem enter_takes_line_witness :
    (fooState.handle_event (.key .enter)).1
      = some (.line "foo") := by
  have h := enter_takes_line fooState (by decide)
  rw [h.1]
  decide

/-- C6, evaluation at the failing input: printing the bytes ab, newline,
cd (no trailing newline) from a fresh 80-column LineState marks the write
unterminated but records length 4 — the display width of the whole data —
while the trailing unterminated segment cd after the last newline has
width 2. -/
theorem print_data_counts_whole_data :
    ((LineState.new "> " (80, 24)).print_data
        ['a', 'b', '\n', 'c', 'd']).last_line_completed = false ∧
    ((LineState.new "> " (80, 24)).print_data
        ['a', 'b', '\n', 'c', 'd']).last_line_length = 4 ∧
    ansiWidth (trailingSegment ['a', 'b', '\n', 'c', 'd']) = 2 ∧
    (4 : Nat) ≠ 2 := by
  decide

/-- C9: for every LineState whose cursor grapheme index is within the
grapheme count, any sequence of character-insert, backspace,
delete-forward, cursor-left and cursor-right events keeps the cursor
grapheme index within the closed interval from 0 to the grapheme count of
the buffer. -/
theorem cursor_stays_in_bounds (evs : List Event) (s : LineState)
    (hev : ∀ e ∈ evs, e.isEditKey = true)
    (hs : s.line_cursor_grapheme ≤ s.line.length) :
    (evs.foldl LineState.step s).line_cursor_grapheme
      ≤ (evs.foldl LineState.step s).line.length := by
  induction evs generalizing s with
  | nil => exact hs
  | cons e evs ih =>
    rw [List.foldl_cons]
    exact ih _ (fun e' he' => hev e' (List.mem_cons_of_mem _ he'))
      (LineState.step_edit_bound s e (hev e (List.mem_cons_self _ _)) hs)

/-- Witness for C9: the bound holds after a concrete edit sequence from a
fresh LineState. -/
theorem cursor_stays_in_bounds_witness :
    ([Event.key (.char 'a' false), Event.key .left, Event.key .backspace,
      Event.key .right, Event.key .delete].foldl LineState.step
        (LineState.new "> " (80, 24))).line_cursor_grapheme
      ≤ ([Event.key (.char 'a' false), Event.key .left, Event.key .backspace,
          Event.key .right, Event.key .delete].foldl LineState.step
            (LineState.new "> " (80, 24))).line.length :=
  cursor_stays_in_bounds _ _ (by decide) (by decide)

/-- C10, evaluation at the failing input: the constructor clamps the
stored column count to at least 1, but the Resize handler stores the raw
count, so a resize event with 0 columns leaves a stored width of 0 — on
which the line_height division in the Rust source divides by zero. -/
theorem resize_stores_zero_width :
    (LineState.new "> " (0, 24)).term_size.1 = 1 ∧
    ((LineState.new "> " (80, 24)).handle_event
        (Event.resize 0 24)).2.term_size.1 = 0 := by
  decide

end RustylineAsync
